import Mathlib

/-!
Verification of the QuantPDE `Axis` component (`src/Axis.hpp`) and of the
option handling and event registration of the reference program
(`test/bermudan_put.cpp`), via a shallow embedding.

The C++ `Real` (a `double`, used by the algorithms through exact arithmetic
identities) is modelled as `ℚ`; `Index` as `ℕ`.  Pointer-level effects
(deep copies, in-place writes, freshness of `refine`'s result) are modelled
by an explicit store of tick buffers.
-/

namespace QuantPDE

/-- C++ `Real` (`double` in the source); modelled with exact rationals. -/
abbrev Real : Type := ℚ

/-- C++ `Index`. -/
abbrev Index : Type := ℕ

/-- Model of `class Axis`: the tick buffer `Real *n` together with its `length`,
modelled as the list of buffer contents. -/
structure Axis where
  ticks : List Real
deriving DecidableEq

/-- Model of `Axis::size()`: the total number of ticks on this axis. -/
def Axis.size (a : Axis) : Index := a.ticks.length

/-- Read access `Axis::operator()(Index i)`.  An out-of-range read is
undefined behaviour in C++; here it defaults to `0`. -/
def Axis.tick (a : Axis) (i : Index) : Real := a.ticks.getD i 0

/-- The strict-monotonicity invariant of an axis
(`tick[i] < tick[i+1]` for all valid `i`). -/
def strictlyIncreasing (l : List Real) : Prop := List.Chain' (· < ·) l

/-- Executable form of the debug-mode monotonicity scan
(`while(p < n + length - 1) assert(*p < *(p+1));`). -/
def chainLt : List Real → Bool
  | [] => true
  | [_] => true
  | a :: b :: l => decide (a < b) && chainLt (b :: l)

instance (l : List Real) : Decidable (strictlyIncreasing l) :=
  decidable_of_iff (chainLt l = true) (Iff.symm (by
    induction l with
    | nil => simp [strictlyIncreasing, chainLt]
    | cons a l ih =>
      cases l with
      | nil => simp [strictlyIncreasing, chainLt]
      | cons b l =>
        simp only [strictlyIncreasing, List.chain'_cons, chainLt,
          Bool.and_eq_true, decide_eq_true_eq]
        exact and_congr Iff.rfl ih))

/-- The constructor `Axis(std::initializer_list<Real>)` as compiled in a
debug build: the
two `assert`s (`length > 0`, then pairwise `*p < *(p+1)`) abort construction
when violated, modelled by `none`. -/
def Axis.ofInitListDebug (l : List Real) : Option Axis :=
  if 0 < l.length then
    if strictlyIncreasing l then some ⟨l⟩ else none
  else none

/-- The constructor `Axis(std::initializer_list<Real>)` as compiled with
`NDEBUG`: the
asserts vanish and the listed ticks are stored verbatim. -/
def Axis.ofInitListRelease (l : List Real) : Axis := ⟨l⟩

/-- The constructor `Axis(const Vector &vector)`: `length = vector.size()` and a `memcpy`
of the vector's contiguous data, with no validation at all. -/
def Axis.ofVector (v : List Real) : Axis := ⟨v⟩

/-- The `while` loop of `Axis::refine()`: with `prev = n[i-1]` and the
remaining ticks `n[i], n[i+1], ...`, each iteration emits the midpoint
`(n[i-1] + n[i])/2` and then `n[i]`. -/
def refineLoop : Real → List Real → List Real
  | _, [] => []
  | prev, t :: ts => (prev + t) / 2 :: t :: refineLoop t ts

/-- Model of `Axis::refine()`: `refined(0) = n[0]`, then the midpoint/tick loop.
(The source never calls this on an empty axis; that case is mapped to the
empty axis.) -/
def Axis.refine (a : Axis) : Axis :=
  match a.ticks with
  | [] => ⟨[]⟩
  | t :: ts => ⟨t :: refineLoop t ts⟩

/-! ### A store of tick buffers

`Axis` objects own raw buffers (`Real *n`); deep-copy and no-mutation
claims are about buffer identity, so they are stated over an explicit
store: a heap of buffers addressed by handles. -/

/-- A heap of tick buffers; an axis object's `Real *n` is a handle. -/
abbrev Store : Type := List (List Real)

/-- The buffer a handle points to (dangling handles read as empty). -/
def Store.buf (s : Store) (h : ℕ) : List Real := s.getD h []

/-- An allocation (`new Real[...]` together with the writes filling it):
appends a fresh buffer and returns the store with the fresh handle. -/
def Store.alloc (s : Store) (b : List Real) : Store × ℕ :=
  (s ++ [b], s.length)

/-- The copy constructor `Axis(const Axis &that)`: allocate, then `memcpy` the source buffer. -/
def Store.copyCtor (s : Store) (src : ℕ) : Store × ℕ :=
  s.alloc (s.buf src)

/-- The assignment `Axis::operator=(Axis that)`: `that` is a by-value deep copy and the
swap leaves the target owning that fresh copy (its old buffer dies with
`that`), so the net effect is that `dst`'s buffer holds a copy of `src`'s. -/
def Store.assign (s : Store) (dst src : ℕ) : Store :=
  s.set dst (s.buf src)

/-- A write through the non-const `Axis::operator()(Index i)`. -/
def Store.write (s : Store) (h i : ℕ) (v : Real) : Store :=
  s.set h ((s.buf h).set i v)

/-- Model of `Axis::refine()` at the store level: the refined ticks are written
into a freshly allocated buffer (`Axis refined(length * 2 - 1)`). -/
def Store.refineOp (s : Store) (src : ℕ) : Store × ℕ :=
  s.alloc (Axis.refine ⟨s.buf src⟩).ticks

/-! ### Printing (`operator<<(std::ostream &, const Axis &)`) -/

/-- The print loop `for(Index i = 1; i < axis.size(); i++)
os << ' ' << axis(i);` over the ticks after the first. -/
def printTail (render : Real → String) : List Real → String
  | [] => ""
  | t :: ts => " " ++ render t ++ printTail render ts

/-- The stream-insertion operator: `'('`, the first tick, the loop over
the remaining ticks, `')'`.  `render` abstracts the ostream formatting of
one `Real`.  (C++ reads `axis(0)` out of range on an empty axis; that case
is mapped to `"()"` here and excluded by the claim.) -/
def printAxis (render : Real → String) (a : Axis) : String :=
  match a.ticks with
  | [] => "()"
  | t :: ts => "(" ++ render t ++ printTail render ts ++ ")"

/-- The parameters of `bermudan_put.cpp`'s `main` with their defaults. -/
structure Params where
  K : Real := 100
  T : Real := 1
  r : Real := 0.04
  v : Real := 0.2
  q : Real := 0
  R : ℤ := 0
  e : ℤ := 10
  N : ℤ := 25
deriving DecidableEq

/-- One option as delivered by `getopt`: the flag together with its
already-converted `atof`/`atoi` argument.  `bad` is the `':'` / `'?'`
case (missing argument or unknown flag). -/
inductive CliOpt where
  | d (x : Real)
  | e (n : ℤ)
  | h
  | K (x : Real)
  | N (n : ℤ)
  | r (x : Real)
  | R (n : ℤ)
  | T (x : Real)
  | v (x : Real)
  | bad
deriving DecidableEq

/-- Outcome of one iteration of the getopt loop: continue with updated
parameters, or return from `main` with an exit code after writing the
given text to `cerr`. -/
inductive StepOut where
  | next (p : Params)
  | exit (code : ℕ) (stderrOut : String)
deriving DecidableEq

/-- The text `help()` writes to `cerr`. -/
def usageText : String :=
  "unequal_borrowing_lending_rates [OPTIONS]\n\n" ++
  "Prices a long/short position straddle under the Black-Scholes model assuming\n" ++
  "unequal borrowing/lending rates.\n\n" ++
  "-d REAL\n\n    sets the dividend rate (default is 0.)\n\n" ++
  "-e NONNEGATIVE_INTEGER\n\n" ++
  "    sets the number of premature exercises, spread evenly throughout the\n" ++
  "    interval (default is 10)\n\n" ++
  "-K REAL\n\n    sets the strike price (default is 100.)\n\n" ++
  "-N POSITIVE_INTEGER\n\n" ++
  "    sets the number of steps to take in time (default is 100)\n\n" ++
  "-r REAL\n\n    sets the interest rate (default is 0.04)\n\n" ++
  "-R NONNEGATIVE_INTEGER\n\n" ++
  "    controls the coarseness of the grid, with 0 being coarsest (default is 0)\n\n" ++
  "-T POSITIVE_REAL\n\n    sets the expiry time (default is 1.)\n\n" ++
  "-v REAL\n\n    sets the volatility (default is 0.2)\n\n"

/-- The `switch(c)` body of `main`'s getopt loop. -/
def procOpt (p : Params) : CliOpt → StepOut
  | .d x => .next { p with q := x }
  | .e n =>
    if n < 0 then
      .exit 1 "error: the number of premature exercises must be nonnegative\n"
    else .next { p with e := n }
  | .h => .exit 0 usageText
  | .K x => .next { p with K := x }
  | .N n =>
    if n ≤ 0 then .exit 1 "error: the number of steps must be positive\n"
    else .next { p with N := n }
  | .r x => .next { p with r := x }
  | .R n =>
    if n < 0 then
      .exit 1 "error: the maximum level of refinement must be nonnegative\n"
    else .next { p with R := n }
  | .T x =>
    if x ≤ 0 then .exit 1 "error: expiry time must be positive\n"
    else .next { p with T := x }
  | .v x => .next { p with v := x }
  | .bad => .exit 1 ("\n" ++ usageText)

/-- The getopt `while` loop: options are processed left to right until one
returns from `main`. -/
def procOpts (p : Params) : List CliOpt → StepOut
  | [] => .next p
  | o :: os =>
    match procOpt p o with
    | .next p' => procOpts p' os
    | .exit c m => .exit c m

/-- The observable result of `main`: exit code, `cerr` output, and the
parameters handed to the numerical phase (`none` when the option loop
returned before any numerical computation). -/
structure RunResult where
  exitCode : ℕ
  stderrOut : String
  computed : Option Params
deriving DecidableEq

/-- The function `main` as a whole: the getopt loop runs first; the numerical phase
(grid construction, stepping, solving, printing) runs only if the loop
falls through, and receives the validated parameters. -/
def runMain (opts : List CliOpt) : RunResult :=
  match procOpts {} opts with
  | .next p => ⟨0, "", some p⟩
  | .exit c m => ⟨c, m, none⟩

/-! ### Exercise-event registration (`bermudan_put.cpp`) -/

/-- The registration loop
`for(unsigned m = 0; m < e; m++) stepper.add(T / e * m, ...);`:
the list of registered event times, in registration order. -/
def exerciseTimes (T : Real) (e : ℕ) : List Real :=
  (List.range e).map (fun m : ℕ => T / (e : Real) * (m : Real))

/-! ### Basic facts about `refineLoop` -/

theorem refineLoop_length (p : Real) (ts : List Real) :
    (refineLoop p ts).length = 2 * ts.length := by
  induction ts generalizing p with
  | nil => simp [refineLoop]
  | cons t ts ih => simp [refineLoop, ih, Nat.mul_succ]

theorem refineLoop_getD_odd (ts : List Real) (p : Real) (k : ℕ)
    (hk : k < ts.length) :
    (refineLoop p ts).getD (2 * k + 1) 0 = ts.getD k 0 := by
  induction ts generalizing p k with
  | nil => simp at hk
  | cons t ts ih =>
    cases k with
    | zero => simp [refineLoop]
    | succ k =>
      have hk' : k < ts.length := by simpa using Nat.lt_of_succ_lt_succ hk
      have : 2 * (k + 1) + 1 = (2 * k + 1) + 2 := by ring
      simp only [refineLoop, this, List.getD_cons_succ]
      exact ih t k hk'

theorem refineLoop_getD_even (ts : List Real) (p : Real) (k : ℕ)
    (hk : k < ts.length) :
    (refineLoop p ts).getD (2 * k) 0 =
      ((p :: ts).getD k 0 + ts.getD k 0) / 2 := by
  induction ts generalizing p k with
  | nil => simp at hk
  | cons t ts ih =>
    cases k with
    | zero => simp [refineLoop]
    | succ k =>
      have hk' : k < ts.length := by simpa using Nat.lt_of_succ_lt_succ hk
      have h2 : 2 * (k + 1) = (2 * k) + 2 := by ring
      simp only [refineLoop, h2, List.getD_cons_succ]
      exact ih t k hk'

theorem refine_size (a : Axis) (h : 1 ≤ a.size) :
    a.refine.size = 2 * a.size - 1 := by
  rcases a with ⟨ticks⟩
  cases ticks with
  | nil => simp [Axis.size] at h
  | cons t ts =>
    simp [Axis.refine, Axis.size, refineLoop_length, Nat.mul_succ]

theorem refine_even (a : Axis) (k : ℕ) (hk : k < a.size) :
    a.refine.tick (2 * k) = a.tick k := by
  rcases a with ⟨ticks⟩
  cases ticks with
  | nil => simp [Axis.size] at hk
  | cons t ts =>
    cases k with
    | zero => simp [Axis.refine, Axis.tick]
    | succ k =>
      have hk' : k < ts.length := by
        simpa [Axis.size] using Nat.lt_of_succ_lt_succ hk
      have h2 : 2 * (k + 1) = (2 * k + 1) + 1 := by ring
      simp only [Axis.refine, Axis.tick, h2, List.getD_cons_succ]
      exact refineLoop_getD_odd ts t k hk'

theorem refine_odd (a : Axis) (k : ℕ) (hk : k + 1 < a.size) :
    a.refine.tick (2 * k + 1) = (a.tick k + a.tick (k + 1)) / 2 := by
  rcases a with ⟨ticks⟩
  cases ticks with
  | nil => simp [Axis.size] at hk
  | cons t ts =>
    have hk' : k < ts.length := by
      simpa [Axis.size] using Nat.lt_of_succ_lt_succ hk
    simp only [Axis.refine, Axis.tick, List.getD_cons_succ]
    rw [refineLoop_getD_even ts t k hk']

/-- Claim C1: for every Axis built from a strictly increasing list of
`n ≥ 1` ticks, `refine()` returns an axis of exactly `2n - 1` ticks in
which the original tick at position `k` reappears unchanged at output
position `2k`, and the tick at every odd output position `2k + 1` is
exactly the arithmetic mean of the adjacent original pair. -/
theorem refine_spec (a : Axis) (hn : 1 ≤ a.size)
    (hmono : strictlyIncreasing a.ticks) :
    a.refine.size = 2 * a.size - 1 ∧
    (∀ k, k < a.size → a.refine.tick (2 * k) = a.tick k) ∧
    (∀ k, k + 1 < a.size →
      a.refine.tick (2 * k + 1) = (a.tick k + a.tick (k + 1)) / 2) := by
  refine ⟨refine_size a hn, fun k hk => refine_even a k hk,
    fun k hk => refine_odd a k hk⟩

/-- Concrete instantiation of `refine_spec` at the axis `(0 2 6)`. -/
theorem refine_spec_witness :
    1 ≤ (Axis.mk [0, 2, 6]).size ∧
    strictlyIncreasing (Axis.mk [0, 2, 6]).ticks ∧
    (Axis.mk [0, 2, 6]).refine.size = 2 * (Axis.mk [0, 2, 6]).size - 1 ∧
    (Axis.mk [0, 2, 6]).refine.tick 2 = (Axis.mk [0, 2, 6]).tick 1 ∧
    (Axis.mk [0, 2, 6]).refine.tick 1 =
      ((Axis.mk [0, 2, 6]).tick 0 + (Axis.mk [0, 2, 6]).tick 1) / 2 := by
  have h := refine_spec (Axis.mk [0, 2, 6]) (by decide) (by decide)
  exact ⟨by decide, by decide, h.1, h.2.1 1 (by decide),
    h.2.2 0 (by decide)⟩

theorem chain_refineLoop (ts : List Real) (p : Real)
    (h : List.Chain (· < ·) p ts) :
    List.Chain (· < ·) p (refineLoop p ts) := by
  induction ts generalizing p with
  | nil => simp [refineLoop]
  | cons t ts ih =>
    rcases List.chain_cons.mp h with ⟨hpt, hts⟩
    have h1 : p < (p + t) / 2 := by linarith
    have h2 : (p + t) / 2 < t := by linarith
    exact List.chain_cons.mpr ⟨h1,
      List.chain_cons.mpr ⟨h2, ih t hts⟩⟩

/-- Claim C2: `refine()` preserves the Axis invariant: if the ticks are
strictly monotonically increasing, so are the ticks of the refined axis. -/
theorem refine_strictlyIncreasing (a : Axis)
    (h : strictlyIncreasing a.ticks) :
    strictlyIncreasing a.refine.ticks := by
  rcases a with ⟨ticks⟩
  cases ticks with
  | nil => simp [Axis.refine, strictlyIncreasing]
  | cons t ts =>
    have hc : List.Chain (· < ·) t ts := h
    exact chain_refineLoop ts t hc

/-- Concrete instantiation of `refine_strictlyIncreasing` at `(0 2 6)`. -/
theorem refine_strictlyIncreasing_witness :
    strictlyIncreasing (Axis.mk [0, 2, 6]).ticks ∧
    strictlyIncreasing (Axis.mk [0, 2, 6]).refine.ticks :=
  ⟨by decide, refine_strictlyIncreasing (Axis.mk [0, 2, 6]) (by decide)⟩

/-- Claim C4: the initializer-list constructor validates (debug builds only)
that the list is non-empty and strictly increasing; when the preconditions
hold the axis stores exactly the listed ticks in order, and the `NDEBUG`
build stores them verbatim with no validation at all. -/
theorem ofInitList_spec (l : List Real) :
    ((∃ a, Axis.ofInitListDebug l = some a) ↔
      0 < l.length ∧ strictlyIncreasing l) ∧
    (∀ a, Axis.ofInitListDebug l = some a →
      a.size = l.length ∧ a.ticks = l) ∧
    ((Axis.ofInitListRelease l).size = l.length ∧
      (Axis.ofInitListRelease l).ticks = l) := by
  unfold Axis.ofInitListDebug
  refine ⟨?_, ?_, rfl, rfl⟩
  · constructor
    · rintro ⟨a, ha⟩
      by_cases h0 : 0 < l.length
      · by_cases h1 : strictlyIncreasing l
        · exact ⟨h0, h1⟩
        · simp [h0, h1] at ha
      · simp [h0] at ha
    · rintro ⟨h0, h1⟩
      exact ⟨⟨l⟩, by simp [h0, h1]⟩
  · intro a ha
    by_cases h0 : 0 < l.length
    · by_cases h1 : strictlyIncreasing l
      · simp [h0, h1] at ha
        exact ⟨by simp [← ha, Axis.size], by simp [← ha]⟩
      · simp [h0, h1] at ha
    · simp [h0] at ha

/-- Concrete instantiation of `ofInitList_spec`: the valid list `[1, 2]`
constructs, and the release build accepts the non-increasing `[2, 1]`. -/
theorem ofInitList_spec_witness :
    Axis.ofInitListDebug [(1 : Real), 2] = some ⟨[1, 2]⟩ ∧
    ((Axis.mk [(1 : Real), 2]).size = [(1 : Real), 2].length ∧
      (Axis.mk [(1 : Real), 2]).ticks = [(1 : Real), 2]) ∧
    ¬ strictlyIncreasing [(2 : Real), 1] ∧
    (Axis.ofInitListRelease [(2 : Real), 1]).ticks = [(2 : Real), 1] :=
  ⟨by decide,
   (ofInitList_spec [(1 : Real), 2]).2.1 ⟨[1, 2]⟩ (by decide),
   by decide,
   (ofInitList_spec [(2 : Real), 1]).2.2.2⟩

/-- Claim C5: the vector constructor performs no check whatsoever; the axis
has the vector's size and copies every element verbatim. -/
theorem ofVector_spec (v : List Real) :
    (Axis.ofVector v).size = v.length ∧
    (∀ i, i < v.length → (Axis.ofVector v).tick i = v.getD i 0) :=
  ⟨rfl, fun _ _ => rfl⟩

/-- Concrete instantiation of `ofVector_spec` on the non-increasing
vector `[3, 1, 2]`. -/
theorem ofVector_spec_witness :
    ¬ strictlyIncreasing [(3 : Real), 1, 2] ∧
    (Axis.ofVector [(3 : Real), 1, 2]).size = [(3 : Real), 1, 2].length ∧
    (Axis.ofVector [(3 : Real), 1, 2]).tick 1 = [(3 : Real), 1, 2].getD 1 0 :=
  ⟨by decide, (ofVector_spec [(3 : Real), 1, 2]).1,
   (ofVector_spec [(3 : Real), 1, 2]).2 1 (by decide)⟩

theorem buf_append_fresh (s : Store) (b : List Real) :
    Store.buf (s ++ [b]) s.length = b := by
  simp [Store.buf, List.getD]

theorem buf_append_old (s : Store) (b : List Real) (h : ℕ)
    (hh : h < s.length) : Store.buf (s ++ [b]) h = s.buf h := by
  simp [Store.buf, List.getD, List.getElem?_append_left hh]

theorem buf_set_ne (s : Store) (b : List Real) (h h' : ℕ) (hne : h ≠ h') :
    Store.buf (s.set h' b) h = s.buf h := by
  simp [Store.buf, List.getD, List.getElem?_set_ne (Ne.symm hne)]

/-- Claim C6: copies of an axis are deep.  A copy-constructed axis holds a
buffer equal to the source's, and writing any tick of the copy leaves every
tick of the source unchanged; likewise for assignment between distinct
axis objects. -/
theorem copy_deep (s : Store) (src : ℕ) (hsrc : src < s.length) :
    ((s.copyCtor src).1.buf (s.copyCtor src).2 = s.buf src) ∧
    (∀ i v, ((s.copyCtor src).1.write (s.copyCtor src).2 i v).buf src =
      s.buf src) ∧
    (∀ dst, dst ≠ src → dst < s.length →
      (s.assign dst src).buf dst = s.buf src ∧
      ∀ i v, ((s.assign dst src).write dst i v).buf src = s.buf src) := by
  have hne : src ≠ s.length := Nat.ne_of_lt hsrc
  refine ⟨buf_append_fresh s (s.buf src), ?_, ?_⟩
  · intro i v
    unfold Store.copyCtor Store.alloc Store.write
    rw [buf_set_ne _ _ _ _ hne, buf_append_old s _ src hsrc]
  · intro dst hdst hd
    constructor
    · unfold Store.assign Store.buf
      simp [List.getD, List.getElem?_set_self hd]
    · intro i v
      unfold Store.assign Store.write
      rw [buf_set_ne _ _ _ _ (Ne.symm hdst),
        buf_set_ne _ _ _ _ (Ne.symm hdst)]

/-- Concrete instantiation of `copy_deep`: store with buffers `[1, 2]` and
`[9]`, copy buffer 0 and overwrite tick 0 of the copy with 5, then assign
object 1 from object 0 and overwrite tick 1 of object 1 with 5. -/
theorem copy_deep_witness :
    Store.buf (Store.copyCtor [[(1 : Real), 2], [9]] 0).1
      (Store.copyCtor [[(1 : Real), 2], [9]] 0).2 =
      Store.buf [[(1 : Real), 2], [9]] 0 ∧
    Store.buf (Store.write (Store.copyCtor [[(1 : Real), 2], [9]] 0).1
      (Store.copyCtor [[(1 : Real), 2], [9]] 0).2 0 5) 0 =
      Store.buf [[(1 : Real), 2], [9]] 0 ∧
    Store.buf (Store.assign [[(1 : Real), 2], [9]] 1 0) 1 =
      Store.buf [[(1 : Real), 2], [9]] 0 ∧
    Store.buf (Store.write (Store.assign [[(1 : Real), 2], [9]] 1 0) 1 1 5)
      0 = Store.buf [[(1 : Real), 2], [9]] 0 :=
  ⟨(copy_deep [[(1 : Real), 2], [9]] 0 (by decide)).1,
   (copy_deep [[(1 : Real), 2], [9]] 0 (by decide)).2.1 0 5,
   ((copy_deep [[(1 : Real), 2], [9]] 0 (by decide)).2.2 1 (by decide)
     (by decide)).1,
   ((copy_deep [[(1 : Real), 2], [9]] 0 (by decide)).2.2 1 (by decide)
     (by decide)).2 1 5⟩

/-- Claim C7: `refine()` does not mutate the receiver: the original buffer is
unchanged, the result lives at a fresh handle holding the refined ticks,
and writing to the result does not touch the original. -/
theorem refine_no_mutation (s : Store) (src : ℕ) (hsrc : src < s.length) :
    ((s.refineOp src).1.buf src = s.buf src) ∧
    ((s.refineOp src).2 ≠ src) ∧
    ((s.refineOp src).1.buf (s.refineOp src).2 =
      (Axis.refine ⟨s.buf src⟩).ticks) ∧
    (∀ i v, ((s.refineOp src).1.write (s.refineOp src).2 i v).buf src =
      s.buf src) := by
  have hne : src ≠ s.length := Nat.ne_of_lt hsrc
  refine ⟨buf_append_old s _ src hsrc, fun h => hne h.symm,
    buf_append_fresh s _, ?_⟩
  intro i v
  unfold Store.refineOp Store.alloc Store.write
  rw [buf_set_ne _ _ _ _ hne, buf_append_old s _ src hsrc]

/-- Concrete instantiation of `refine_no_mutation` on the store holding
the single buffer `[0, 2]`. -/
theorem refine_no_mutation_witness :
    Store.buf (Store.refineOp [[(0 : Real), 2]] 0).1 0 =
      Store.buf [[(0 : Real), 2]] 0 ∧
    (Store.refineOp [[(0 : Real), 2]] 0).2 ≠ 0 ∧
    Store.buf (Store.write (Store.refineOp [[(0 : Real), 2]] 0).1
      (Store.refineOp [[(0 : Real), 2]] 0).2 1 7) 0 =
      Store.buf [[(0 : Real), 2]] 0 :=
  ⟨(refine_no_mutation [[(0 : Real), 2]] 0 (by decide)).1,
   (refine_no_mutation [[(0 : Real), 2]] 0 (by decide)).2.1,
   (refine_no_mutation [[(0 : Real), 2]] 0 (by decide)).2.2.2 1 7⟩

theorem intercalate_go_printTail (render : Real → String) (ts : List Real)
    (acc : String) :
    String.intercalate.go acc " " (ts.map render) =
      acc ++ printTail render ts := by
  induction ts generalizing acc with
  | nil => simp [String.intercalate.go, printTail]
  | cons t ts ih =>
    simp only [List.map_cons, String.intercalate.go, printTail, ih,
      String.append_assoc]

/-- Claim C9: for every axis of size at least 1, the stream-insertion
operator prints exactly an opening parenthesis, the ticks in index order
separated by single spaces, and a closing parenthesis. -/
theorem print_spec (render : Real → String) (a : Axis) (h : 1 ≤ a.size) :
    printAxis render a =
      "(" ++ String.intercalate " " (a.ticks.map render) ++ ")" := by
  rcases a with ⟨ticks⟩
  cases ticks with
  | nil => simp [Axis.size] at h
  | cons t ts =>
    simp only [printAxis, List.map_cons, String.intercalate,
      intercalate_go_printTail, String.append_assoc]

/-- Concrete instantiation of `print_spec` at a three-tick axis with a
fixed renderer. -/
theorem print_spec_witness :
    1 ≤ (Axis.mk [(1 : Real), 2, 3]).size ∧
    printAxis (fun _ => "t") (Axis.mk [(1 : Real), 2, 3]) = "(t t t)" :=
  ⟨by decide,
   (print_spec (fun _ => "t") (Axis.mk [(1 : Real), 2, 3])
     (by decide)).trans rfl⟩

/-- Claim C8: `-h` prints the usage text and exits 0; a negative `-e`,
non-positive `-N`, negative `-R` or non-positive `-T` prints a
human-readable error to the error stream and exits 1; and whenever the
option loop exits, the numerical computation never runs. -/
theorem cli_spec :
    (∀ (p : Params) (opts : List CliOpt),
      procOpts p (CliOpt.h :: opts) = .exit 0 usageText) ∧
    (∀ (p : Params) (opts : List CliOpt) (n : ℤ), n < 0 →
      procOpts p (CliOpt.e n :: opts) =
        .exit 1
          "error: the number of premature exercises must be nonnegative\n") ∧
    (∀ (p : Params) (opts : List CliOpt) (n : ℤ), n ≤ 0 →
      procOpts p (CliOpt.N n :: opts) =
        .exit 1 "error: the number of steps must be positive\n") ∧
    (∀ (p : Params) (opts : List CliOpt) (n : ℤ), n < 0 →
      procOpts p (CliOpt.R n :: opts) =
        .exit 1
          "error: the maximum level of refinement must be nonnegative\n") ∧
    (∀ (p : Params) (opts : List CliOpt) (x : Real), x ≤ 0 →
      procOpts p (CliOpt.T x :: opts) =
        .exit 1 "error: expiry time must be positive\n") ∧
    (∀ (opts : List CliOpt) (c : ℕ) (m : String),
      procOpts {} opts = .exit c m → runMain opts = ⟨c, m, none⟩) := by
  refine ⟨?_, ?_, ?_, ?_, ?_, ?_⟩
  · intro p opts; simp [procOpts, procOpt]
  · intro p opts n hn; simp [procOpts, procOpt, hn]
  · intro p opts n hn; simp [procOpts, procOpt, hn]
  · intro p opts n hn; simp [procOpts, procOpt, hn]
  · intro p opts x hx; simp [procOpts, procOpt, hx]
  · intro opts c m hexit; rw [runMain, hexit]

/-- Concrete instantiation of `cli_spec`: each terminating flag alone, and
the whole program on `-T 0`. -/
theorem cli_spec_witness :
    procOpts {} [CliOpt.h] = .exit 0 usageText ∧
    procOpts {} [CliOpt.e (-1)] =
      .exit 1
        "error: the number of premature exercises must be nonnegative\n" ∧
    procOpts {} [CliOpt.N 0] =
      .exit 1 "error: the number of steps must be positive\n" ∧
    procOpts {} [CliOpt.R (-1)] =
      .exit 1 "error: the maximum level of refinement must be nonnegative\n" ∧
    procOpts {} [CliOpt.T 0] =
      .exit 1 "error: expiry time must be positive\n" ∧
    runMain [CliOpt.T 0] =
      ⟨1, "error: expiry time must be positive\n", none⟩ :=
  ⟨cli_spec.1 {} [],
   cli_spec.2.1 {} [] (-1) (by decide),
   cli_spec.2.2.1 {} [] 0 (by decide),
   cli_spec.2.2.2.1 {} [] (-1) (by decide),
   cli_spec.2.2.2.2.1 {} [] 0 (by decide),
   cli_spec.2.2.2.2.2 [CliOpt.T 0] 1 "error: expiry time must be positive\n"
     (cli_spec.2.2.2.2.1 {} [] 0 (by decide))⟩

/-- Claim C10: with a validated exercise count `e` the program registers
exactly `e` events, at times `T * m / e` for `m = 0, ..., e - 1`; an
exercise is scheduled at the initial time `0` (when `e ≥ 1`) but never at
the expiry `T`, and for `e = 0` no event is registered at all. -/
theorem exerciseTimes_spec (T : Real) (e : ℕ) (hT : 0 < T) :
    (exerciseTimes T e).length = e ∧
    (∀ m, m < e →
      (exerciseTimes T e).getD m 0 = T * (m : Real) / (e : Real)) ∧
    (1 ≤ e → (0 : Real) ∈ exerciseTimes T e) ∧
    T ∉ exerciseTimes T e ∧
    exerciseTimes T 0 = [] := by
  refine ⟨by simp [exerciseTimes], ?_, ?_, ?_, by simp [exerciseTimes]⟩
  · intro m hm
    rw [exerciseTimes, List.getD_eq_getElem?_getD, List.getElem?_map,
      List.getElem?_range hm, Option.map_some', Option.getD_some]
    ring
  · intro he
    exact List.mem_map.mpr ⟨0, List.mem_range.mpr (by omega), by simp⟩
  · intro hmem
    obtain ⟨m, hm, heq⟩ := List.mem_map.mp hmem
    have hme : m < e := List.mem_range.mp hm
    have hecast : ((e : Real)) ≠ 0 := Nat.cast_ne_zero.mpr (by omega)
    rw [div_mul_eq_mul_div, div_eq_iff hecast] at heq
    have hcast : (m : Real) = (e : Real) :=
      mul_left_cancel₀ (ne_of_gt hT) heq
    have : m = e := by exact_mod_cast hcast
    omega

/-- Concrete instantiation of `exerciseTimes_spec` at `T = 1, e = 2`. -/
theorem exerciseTimes_spec_witness :
    (0 : Real) < 1 ∧
    (exerciseTimes 1 2).length = 2 ∧
    (exerciseTimes 1 2).getD 1 0 = 1 * (1 : Real) / (2 : Real) ∧
    (0 : Real) ∈ exerciseTimes 1 2 ∧
    (1 : Real) ∉ exerciseTimes 1 2 :=
  ⟨by decide, (exerciseTimes_spec 1 2 (by decide)).1,
   (exerciseTimes_spec 1 2 (by decide)).2.1 1 (by decide),
   (exerciseTimes_spec 1 2 (by decide)).2.2.1 (by decide),
   (exerciseTimes_spec 1 2 (by decide)).2.2.2.1⟩

end QuantPDE
